import Mathlib

/-!
Verification of the incremental PubMed merge and cross-reference engine.

The repository has two variants of the pipeline:
* `main_ftp.py` — parses batches with `pubmed_parser`, keys records by
  `_id = pmid`, does set-based citation change detection, and resolves
  references (`idArticle`) of `updated` records inside `update_database`.
* `main.py` — keys records by the `ArticleIdList` payload field, performs
  no change detection, and resolves references in `update_references`.

Definitions below are shallow embeddings of those scripts.  The MongoDB
collection (an external collaborator, out of scope per the design) is
modelled as a list of documents in natural (insertion) order; `find_one`
returns the first match, `update_one` updates the first match, and
`insert_one` appends.  Modelled from the spec: the store keys records by
the external identifier (`upsert ... keyed on externalId`), so a document
inserted by `update_database` is retrievable by `_id = pmid`
(`internalId ... may be identical to externalId`).
-/

deriving instance DecidableEq for Except

namespace Pubmed

/-- One entry of the `references` array written by `update_database` in
`main_ftp.py`: `{'pmid': ref, 'idArticle': None}`. -/
structure Ref where
  pmid : String
  idArticle : Option String
deriving DecidableEq, Repr

/-- A document of the `ajustes` collection as written by `main_ftp.py`:
the Mongo `_id`, the parsed article fields consumed by the script
(`pmid`, the raw semicolon-joined `reference` string, and the rest of the
parsed payload kept opaque), plus the `references` array and the
`updated` flag the script maintains. -/
structure StoredArticle where
  id : String
  pmid : String
  payload : String
  reference : String
  references : List Ref
  updated : Bool
deriving DecidableEq, Repr

/-- An article dict as produced by `pp.parse_medline_xml` and consumed by
`update_database`: the `pmid`, the raw `reference` string, and the other
parsed fields kept opaque as `payload`. -/
structure RawArticle where
  pmid : String
  payload : String
  reference : String
deriving DecidableEq, Repr

/-- `collection.find_one({'_id': i})`: first document in natural order
whose `_id` equals `i`. -/
def find_one_id (c : List StoredArticle) (i : String) : Option StoredArticle :=
  c.find? (fun d => d.id == i)

/-- `collection.update_one({'_id': i}, {'$set': ...})`: apply `f` to the
first document whose `_id` equals `i`, leave the rest unchanged. -/
def update_one_id (c : List StoredArticle) (i : String)
    (f : StoredArticle → StoredArticle) : List StoredArticle :=
  match c with
  | [] => []
  | d :: rest => if d.id == i then f d :: rest else d :: update_one_id rest i f

/-- Python `str.split(';')` on the character list: `""` splits to
`[""]`, adjacent separators produce empty fields. -/
def splitSemi : List Char → List (List Char)
  | [] => [[]]
  | ch :: rest =>
      let r := splitSemi rest
      if ch = ';' then [] :: r
      else
        match r with
        | [] => [[ch]]
        | g :: gs => (ch :: g) :: gs

/-- `set(article['reference'].split(';'))`: the citation target set of a
raw article.  Python set iteration order is unspecified; the
deduplication order below is one arbitrary realisation of it. -/
def newReferences (a : RawArticle) : List String :=
  ((splitSemi a.reference.data).map String.mk).dedup

/-- `[{'pmid': ref, 'idArticle': None} for ref in new_references]`. -/
def referenceDocs (a : RawArticle) : List Ref :=
  (newReferences a).map (fun r => { pmid := r, idArticle := none })

/-- Equality of `set(xs)` and `set(ys)` (Python `!=` on the two sets is
the negation of this). -/
def sameSet (xs ys : List String) : Bool :=
  xs.all (fun x => ys.contains x) && ys.all (fun y => xs.contains y)

/-- The `$set` of the changed branch: the whole article dict
(`pmid`, payload fields, raw `reference`) with `updated = True` and the
rebuilt `references` array is written over the existing document. -/
def setArticle (a : RawArticle) (e : StoredArticle) : StoredArticle :=
  { e with pmid := a.pmid, payload := a.payload, reference := a.reference,
           updated := true, references := referenceDocs a }

/-- The document built by the insert branch (`insert_one(article)`). -/
def newDoc (a : RawArticle) : StoredArticle :=
  { id := a.pmid, pmid := a.pmid, payload := a.payload,
    reference := a.reference, updated := true,
    references := referenceDocs a }

/-- The `$set` of the resolution pass: the resolved reference list and
`updated = False`. -/
def clearAndSet (refs : List Ref) (e : StoredArticle) : StoredArticle :=
  { e with references := refs, updated := false }

/-- The per-article body of the first loop of `update_database` in
`main_ftp.py`: look up by `_id = pmid`; if present and the citation sets
differ, `$set` the article with `updated = True` and rebuilt
`references`; if present with equal citation sets, no store write; if
absent, insert the article with `updated = True` and rebuilt
`references`. -/
def mergeArticle (c : List StoredArticle) (a : RawArticle) : List StoredArticle :=
  match find_one_id c a.pmid with
  | some existing =>
      if sameSet (existing.references.map (fun r => r.pmid)) (newReferences a) then
        c
      else
        update_one_id c existing.id (setArticle a)
  | none => c ++ [newDoc a]

/-- The inner loop of the resolution pass: for each entry of a
`references` array, `find_one({'_id': ref['pmid']})` and, when found, set
`idArticle` to the target's `_id`; otherwise leave the entry unchanged. -/
def resolveRefs (c : List StoredArticle) (refs : List Ref) : List Ref :=
  refs.map (fun r =>
    match find_one_id c r.pmid with
    | some t => { r with idArticle := some t.id }
    | none => r)

/-- One step of the resolution pass: resolve the cursor document `d`'s
references against the live collection and
`update_one({'_id': d._id}, {'$set': {'references': ..., 'updated': False}})`. -/
def resolveStep (acc : List StoredArticle) (d : StoredArticle) : List StoredArticle :=
  update_one_id acc d.id (clearAndSet (resolveRefs acc d.references))

/-- The second half of `update_database`: iterate over the documents with
`updated = True` (the cursor snapshot), resolving each and clearing its
flag. -/
def resolvePhase (c : List StoredArticle) : List StoredArticle :=
  (c.filter (fun d => d.updated)).foldl resolveStep c

/-- `update_database` of `main_ftp.py` for one batch file, with the
batch's parsed articles as input: merge every article, then run the
resolution pass. -/
def update_database (c : List StoredArticle) (articles : List RawArticle) :
    List StoredArticle :=
  resolvePhase (articles.foldl mergeArticle c)

/-- The per-run loop of `main` in `main_ftp.py` restricted to the store:
apply `update_database` to each selected batch in order. -/
def processBatches (c : List StoredArticle) (batches : List (List RawArticle)) :
    List StoredArticle :=
  batches.foldl update_database c

/-- An element of the parsed batch as seen by the merge loop: either a
well-formed article, or a malformed record (per the design: a record
`missing required identifier`) whose processing raises. -/
inductive RawItem where
  | ok (a : RawArticle)
  | malformed (msg : String)
deriving DecidableEq, Repr

/-- The merge loop of `update_database` with the exception behaviour of
`main_ftp.py` made explicit: the whole loop runs inside one
`try`/`except` that logs, emails and re-raises, so the first malformed
record aborts the remaining records.  Upserts already performed are
committed MongoDB writes, so the error carries the store state at the
abort. -/
def mergeLoop (c : List StoredArticle) :
    List RawItem → Except (String × List StoredArticle) (List StoredArticle)
  | [] => .ok c
  | .malformed msg :: _ => .error (msg, c)
  | .ok a :: rest => mergeLoop (mergeArticle c a) rest

/-- `update_database` including its exception behaviour: the resolution
pass runs only when the merge loop finished without raising. -/
def update_database_E (c : List StoredArticle) (items : List RawItem) :
    Except (String × List StoredArticle) (List StoredArticle) :=
  (mergeLoop c items).map resolvePhase

/-- Decimal value of a digit run, as `int()` of the matched group. -/
def charsToNat (ds : List Char) : Nat :=
  ds.foldl (fun n c => n * 10 + (c.toNat - 48)) 0

/-- Scanner for the first match of the Python regex `n(\d+)\.`
(`re.findall('n(\d+)\.', filename)[0]` in `parse_filename`): at each
position, an `n` followed by a nonempty maximal digit run followed by a
dot matches; the greedy `\d+` never needs backtracking because only the
maximal run can be followed by a non-digit `.`. -/
def findNumDot : List Char → Option Nat
  | [] => none
  | 'n' :: rest =>
      let ds := rest.takeWhile Char.isDigit
      if ds.isEmpty then findNumDot rest
      else
        match rest.drop ds.length with
        | '.' :: _ => some (charsToNat ds)
        | _ => findNumDot rest
  | _ :: rest => findNumDot rest

/-- `parse_filename` of `main_ftp.py`:
`int(re.findall('n(\d+)\.', filename)[0])`; `none` models the raised
exception (`IndexError` on `[0]`, logged, emailed and re-raised). -/
def parse_filename (s : String) : Option Nat :=
  findNumDot s.data

/-- Scanner for the first match of the Python regex `n(\d+)` used by
`get_file_number` in `main.py` (no trailing dot required). -/
def findNum : List Char → Option Nat
  | [] => none
  | 'n' :: rest =>
      let ds := rest.takeWhile Char.isDigit
      if ds.isEmpty then findNum rest else some (charsToNat ds)
  | _ :: rest => findNum rest

/-- `get_file_number` of `main.py`:
`int(re.search('n(\d+)', file_name).group(1))`; `none` models the
`AttributeError` raised when there is no match. -/
def get_file_number (s : String) : Option Nat :=
  findNum s.data

/-- The list comprehension
`[file for file in files if parse_filename(file, logger) > last_number]`
of `main` in `main_ftp.py`, evaluated left to right: the first filename
on which `parse_filename` raises aborts the whole comprehension. -/
def filterFilesE : List String → Nat → Except String (List String)
  | [], _ => .ok []
  | f :: fs, n =>
      match parse_filename f with
      | none => .error f
      | some k =>
          match filterFilesE fs n with
          | .error g => .error g
          | .ok l => .ok (if n < k then f :: l else l)

/-- Key of the `sorted(files_to_download, key=lambda x: parse_filename(x))`
call; the `getD` branch is never reached on the run path because the
filter has already parsed every selected filename successfully. -/
def fileNum (f : String) : Nat :=
  (parse_filename f).getD 0

/-- `sorted(files_to_download, key=lambda x: parse_filename(x, logger))`:
a stable ascending sort by the parsed file number (Python's `sorted` is
the unique stable ascending-by-key sort, realised here by insertion
sort). -/
def sortByNum (files : List String) : List String :=
  files.insertionSort (fun a b => fileNum a ≤ fileNum b)

/-- Batch selection of `main` in `main_ftp.py`: filter the listing to
files strictly newer than the watermark, then sort ascending by parsed
file number; a filename that `parse_filename` cannot parse aborts. -/
def ftpSelect (files : List String) (n : Nat) : Except String (List String) :=
  (filterFilesE files n).map sortByNum

/-- Number of stored documents whose `_id` equals `x` (the spec's `one
Record per distinct externalId` is `countId c x = 1`). -/
def countId (c : List StoredArticle) (x : String) : Nat :=
  (c.map (fun d => d.id)).count x

/-- The citation-resolution invariant for one `references` entry:
`idArticle` is null or is the `_id` of a stored document whose `pmid`
equals the entry's target `pmid`. -/
def refOk (c : List StoredArticle) (r : Ref) : Prop :=
  r.idArticle = none ∨ ∃ t ∈ c, t.pmid = r.pmid ∧ r.idArticle = some t.id

/-- Store invariant maintained by `update_database`: every document's
`_id` equals its `pmid` (documents are keyed by the external
identifier), and every citation entry satisfies `refOk`. -/
def storeInv (c : List StoredArticle) : Prop :=
  (∀ d ∈ c, d.id = d.pmid) ∧ ∀ d ∈ c, ∀ r ∈ d.references, refOk c r

/-- `get_last_file` of `main_ftp.py`: `collection.find_one()` returns the
first document in natural order — an arbitrary document, not a maximum —
and `None` on an empty store.  Modelled from the spec: the argument is
the list of the stored documents' `filename` fields in natural order
(the spec's `batchSeq`; no code under `src/` writes this field, an
external initial load populates it). -/
def get_last_file (docs : List String) : Option String :=
  docs.head?

/-- `last_number = parse_filename(last_file, logger) if last_file else 0`
in `main` of `main_ftp.py`, with `parse_filename`'s exception made
explicit. -/
def lastNumberFtp (docs : List String) : Except String Nat :=
  match get_last_file docs with
  | none => .ok 0
  | some f =>
      match parse_filename f with
      | some k => .ok k
      | none => .error f

/-- Specification-side watermark, for comparison with the code: the
maximum batch sequence number among all stored records
(`the maximum batchSeq among all stored Records (or 0 if the store is
empty)`). -/
def specWatermark (docs : List String) : Nat :=
  docs.foldl (fun m f => max m (fileNum f)) 0

/-- The download-and-merge loop of `main` in `main_ftp.py`: process the
selected filenames in order, fetching each batch's parsed items with
`fetch`; an exception in `update_database` aborts the run with the store
as committed so far. -/
def runBatches (c : List StoredArticle) (fetch : String → List RawItem) :
    List String → Except (String × List StoredArticle) (List StoredArticle)
  | [] => .ok c
  | f :: fs =>
      match update_database_E c (fetch f) with
      | .error e => .error e
      | .ok c' => runBatches c' fetch fs

/-- `main` of `main_ftp.py` restricted to the store: watermark, batch
selection, then the download-and-merge loop; any raised exception is
logged, emailed and re-raised, aborting the run with the store as
committed at that point. -/
def mainFtpRun (c : List StoredArticle) (fetch : String → List RawItem)
    (wmDocs : List String) (files : List String) :
    Except (String × List StoredArticle) (List StoredArticle) :=
  match lastNumberFtp wmDocs with
  | .error f => .error (f, c)
  | .ok n =>
      match ftpSelect files n with
      | .error f => .error (f, c)
      | .ok sel => runBatches c fetch sel

end Pubmed

namespace MainPy

/-- One entry of `PubmedData.ReferenceList` as consumed by `main.py`:
the cited `ArticleIdList.ArticleId` and the `referenceId` field written
by `update_references` (absent, i.e. `none`, until resolution). -/
structure PyRef where
  articleId : String
  referenceId : Option String
deriving DecidableEq, Repr

/-- A document of the collection as handled by `main.py`: the Mongo
`_id` (store-generated at insert), the `PubmedArticle.PubmedData.ArticleIdList`
value used as the lookup key, the rest of the parsed payload kept
opaque, the reference list, and the `updated` flag. -/
structure PyDoc where
  mid : String
  key : String
  payload : String
  refs : List PyRef
  updated : Bool
deriving DecidableEq, Repr

/-- A parsed `PubmedArticle` as consumed by `process_files`: the
`ArticleIdList` key, the opaque payload, and the raw reference list
(whose entries carry no `referenceId`). -/
structure PyRaw where
  key : String
  payload : String
  refs : List String
deriving DecidableEq, Repr

/-- `collection.find_one({'PubmedArticle.PubmedData.ArticleIdList': k})`:
first document whose key field equals `k`. -/
def find_one_key (c : List PyDoc) (k : String) : Option PyDoc :=
  c.find? (fun d => d.key == k)

/-- `collection.update_one({'_id': m}, ...)`: apply `f` to the first
document whose `_id` equals `m`. -/
def update_one_mid (c : List PyDoc) (m : String) (f : PyDoc → PyDoc) : List PyDoc :=
  match c with
  | [] => []
  | d :: rest => if d.mid == m then f d :: rest else d :: update_one_mid rest m f

/-- Modelled from the spec: MongoDB's store-generated `_id` for
`insert_one` (`internalId: storage-assigned key, ... or store-generated`),
realised as a fresh identifier derived from the collection size. -/
def freshMid (c : List PyDoc) : String :=
  "oid" ++ toString c.length

/-- The per-article body of the merge loop of `process_files` in
`main.py`: look up by the `ArticleIdList` key; if found, set
`updated = True` on the article and `$set` the whole parsed article over
the existing document (replacing its reference list with the raw,
unresolved one); if absent, set `updated = False` and insert.  There is
no change detection. -/
def mergeArticlePy (c : List PyDoc) (a : PyRaw) : List PyDoc :=
  match find_one_key c a.key with
  | some existing =>
      update_one_mid c existing.mid (fun e =>
        { e with key := a.key, payload := a.payload,
                 refs := a.refs.map (fun r => { articleId := r, referenceId := none }),
                 updated := true })
  | none =>
      c ++ [{ mid := freshMid c, key := a.key, payload := a.payload,
              refs := a.refs.map (fun r => { articleId := r, referenceId := none }),
              updated := false }]

/-- The positional `$`-update
`{'$set': {'PubmedData.ReferenceList.$.referenceId': t}}` with an
`$elemMatch` filter on `ArticleIdList.ArticleId`: set `referenceId` on
the first reference entry whose `articleId` matches; no matching entry
means no update. -/
def setFirstRef (refs : List PyRef) (aid : String) (newId : String) : List PyRef :=
  match refs with
  | [] => []
  | r :: rest =>
      if r.articleId == aid then { r with referenceId := some newId } :: rest
      else r :: setFirstRef rest aid newId

/-- One reference of a dirty document in `update_references` of
`main.py`: look up the cited document by the `ArticleIdList` key and,
when found, set `referenceId` on the first matching reference entry of
the live document `did`; when not found, do nothing. -/
def resolveOnePy (did : String) (acc : List PyDoc) (r : PyRef) : List PyDoc :=
  match find_one_key acc r.articleId with
  | some t => update_one_mid acc did (fun e =>
      { e with refs := setFirstRef e.refs r.articleId t.mid })
  | none => acc

/-- The per-document body of `update_references`: process each reference
of the cursor document `d` in order. -/
def resolveDocPy (acc : List PyDoc) (d : PyDoc) : List PyDoc :=
  d.refs.foldl (resolveOnePy d.mid) acc

/-- `update_references` of `main.py`: for every document with
`updated: True`, resolve each of its references against the live
collection.  The `updated` flag is never cleared. -/
def update_referencesPy (c : List PyDoc) : List PyDoc :=
  (c.filter (fun d => d.updated)).foldl resolveDocPy c

/-- Lexicographic comparison of code-point lists, as Python compares
strings. -/
def charListLe : List Char → List Char → Bool
  | [], _ => true
  | _ :: _, [] => false
  | a :: as', b :: bs' =>
      if a = b then charListLe as' bs'
      else decide (a.toNat < b.toNat)

/-- Python `sorted(links)` on strings: stable ascending lexicographic
sort by code points. -/
def sortPy (links : List String) : List String :=
  links.insertionSort (fun a b => charListLe a.data b.data = true)

/-- Batch selection of `process_files` in `main.py`:
`links = [link for link in links if get_file_number(link) > last_number]`
then `for link in sorted(links)` — the sort is plain string sort, not a
sort by file number.  Selection assumes every link parses (otherwise the
comprehension raises, out of scope here). -/
def selectPy (links : List String) (n : Nat) : List String :=
  sortPy (links.filter (fun l => n < (Pubmed.get_file_number l).getD 0))

/-- `get_last_updated_file` of `main.py`:
`find_one(sort=[("filename", -1)])['filename']` — the lexicographically
greatest `filename` among the stored documents; on an empty store
`find_one` returns `None` and the subscript raises, modelled as `none`.
Modelled from the spec: the argument is the stored documents' `filename`
fields (no code under `src/` writes that field). -/
def get_last_updated_file (docs : List String) : Option String :=
  docs.foldl
    (fun acc f =>
      match acc with
      | none => some f
      | some g => if charListLe g.data f.data then some f else some g)
    none

end MainPy

namespace Pubmed

/-! Helper lemmas about the store primitives. -/

theorem find_one_id_mem {c : List StoredArticle} {i : String} {e : StoredArticle}
    (h : find_one_id c i = some e) : e ∈ c ∧ e.id = i := by
  refine ⟨List.mem_of_find?_eq_some h, ?_⟩
  have := List.find?_some h
  simpa using this

theorem find_one_id_eq_none {c : List StoredArticle} {i : String} :
    find_one_id c i = none ↔ ∀ d ∈ c, d.id ≠ i := by
  unfold find_one_id
  rw [List.find?_eq_none]
  constructor
  · intro h d hd
    have := h d hd
    simpa using this
  · intro h d hd
    simpa using h d hd

theorem update_one_id_map_id (i : String) (f : StoredArticle → StoredArticle)
    (hf : ∀ e, (f e).id = e.id) :
    ∀ c : List StoredArticle,
      (update_one_id c i f).map (fun d => d.id) = c.map (fun d => d.id)
  | [] => rfl
  | d :: rest => by
    unfold update_one_id
    by_cases h : d.id = i
    · simp [h, hf]
    · simp only [List.map_cons]
      rw [if_neg (by simpa using h)]
      simp [update_one_id_map_id i f hf rest]

theorem mem_update_one_id {i : String} {f : StoredArticle → StoredArticle}
    {e' : StoredArticle} :
    ∀ {c : List StoredArticle}, e' ∈ update_one_id c i f →
      e' ∈ c ∨ ∃ e ∈ c, e.id = i ∧ e' = f e := by
  intro c
  induction c with
  | nil => intro h; simp [update_one_id] at h
  | cons d rest ih =>
    intro h
    unfold update_one_id at h
    by_cases hd : d.id = i
    · rw [if_pos (by simpa using hd)] at h
      rcases List.mem_cons.mp h with h1 | h1
      · exact Or.inr ⟨d, List.mem_cons_self .., hd, h1⟩
      · exact Or.inl (List.mem_cons_of_mem _ h1)
    · rw [if_neg (by simpa using hd)] at h
      rcases List.mem_cons.mp h with h1 | h1
      · exact Or.inl (by simp [h1])
      · rcases ih h1 with h2 | ⟨e, he, hei, hee⟩
        · exact Or.inl (List.mem_cons_of_mem _ h2)
        · exact Or.inr ⟨e, List.mem_cons_of_mem _ he, hei, hee⟩

theorem exists_pair_update_one_id {i : String} {f : StoredArticle → StoredArticle}
    {c : List StoredArticle}
    (hf : ∀ e ∈ c, e.id = i → (f e).id = e.id ∧ (f e).pmid = e.pmid) :
    ∀ t ∈ c, ∃ t' ∈ update_one_id c i f, t'.id = t.id ∧ t'.pmid = t.pmid := by
  induction c with
  | nil => intro t ht; simp at ht
  | cons d rest ih =>
    intro t ht
    unfold update_one_id
    by_cases hd : d.id = i
    · rw [if_pos (by simpa using hd)]
      rcases List.mem_cons.mp ht with h1 | h1
      · subst h1
        rcases hf t (List.mem_cons_self ..) hd with ⟨h2, h3⟩
        exact ⟨f t, List.mem_cons_self .., h2, h3⟩
      · exact ⟨t, List.mem_cons_of_mem _ h1, rfl, rfl⟩
    · rw [if_neg (by simpa using hd)]
      rcases List.mem_cons.mp ht with h1 | h1
      · subst h1
        exact ⟨t, List.mem_cons_self .., rfl, rfl⟩
      · rcases ih (fun e he hei => hf e (List.mem_cons_of_mem _ he) hei) t h1 with
          ⟨t', ht', h2, h3⟩
        exact ⟨t', List.mem_cons_of_mem _ ht', h2, h3⟩

/-! Re-merging an already-applied article is a no-op (FTP variant). -/

theorem mergeArticle_noop {c : List StoredArticle} {a : RawArticle}
    {e : StoredArticle} (hfind : find_one_id c a.pmid = some e)
    (hsame : sameSet (e.references.map (fun r => r.pmid)) (newReferences a) = true) :
    mergeArticle c a = c := by
  unfold mergeArticle
  rw [hfind]
  simp [hsame]

theorem merge_fold_noop {batch : List RawArticle} :
    ∀ {c : List StoredArticle},
      (∀ a ∈ batch, ∃ e, find_one_id c a.pmid = some e ∧
        sameSet (e.references.map (fun r => r.pmid)) (newReferences a) = true) →
      batch.foldl mergeArticle c = c := by
  induction batch with
  | nil => intro c _; rfl
  | cons a rest ih =>
    intro c h
    rcases h a (List.mem_cons_self ..) with ⟨e, hfind, hsame⟩
    simp only [List.foldl_cons]
    rw [mergeArticle_noop hfind hsame]
    exact ih (fun a' ha' => h a' (List.mem_cons_of_mem _ ha'))


theorem mergeLoop_malformed (msg : String) (post : List RawItem) :
    ∀ (pre : List RawArticle) (c : List StoredArticle),
      mergeLoop c (pre.map RawItem.ok ++ RawItem.malformed msg :: post) =
        .error (msg, pre.foldl mergeArticle c)
  | [], _ => rfl
  | a :: rest, c => by
    simpa [mergeLoop] using mergeLoop_malformed msg post rest (mergeArticle c a)

end Pubmed


/-! Claim theorems. -/

/-- Claim C1 (amended, FTP variant): re-merging an already-applied batch —
every record's `externalId` (pmid) present with the same citation target
set — leaves the store state identical: no record is inserted, no
duplicate is created, and no record's `updated` flag is changed by the
repeat.  (The `main.py` variant violates the original claim; see the
counterexample.) -/
theorem merge_idempotent_ftp (batch : List Pubmed.RawArticle)
    (c : List Pubmed.StoredArticle)
    (h : ∀ a ∈ batch, ∃ e, Pubmed.find_one_id c a.pmid = some e ∧
      Pubmed.sameSet (e.references.map (fun r => r.pmid))
        (Pubmed.newReferences a) = true) :
    batch.foldl Pubmed.mergeArticle c = c :=
  Pubmed.merge_fold_noop h

/-- Witness for C1: a store holding article `A` with citation set
`{B, C}` and a batch republishing `A` with the same set in a different
order; the repeated merge is a no-op. -/
theorem merge_idempotent_ftp_witness :
    (∀ a ∈ [({ pmid := "A", payload := "p2", reference := "B;C" } : Pubmed.RawArticle)],
      ∃ e, Pubmed.find_one_id
          [({ id := "A", pmid := "A", payload := "p", reference := "C;B",
              references := [{ pmid := "C", idArticle := none },
                             { pmid := "B", idArticle := some "B" }],
              updated := false } : Pubmed.StoredArticle)] a.pmid = some e ∧
        Pubmed.sameSet (e.references.map (fun r => r.pmid))
          (Pubmed.newReferences a) = true) ∧
    [({ pmid := "A", payload := "p2", reference := "B;C" } : Pubmed.RawArticle)].foldl
        Pubmed.mergeArticle
        [({ id := "A", pmid := "A", payload := "p", reference := "C;B",
            references := [{ pmid := "C", idArticle := none },
                           { pmid := "B", idArticle := some "B" }],
            updated := false } : Pubmed.StoredArticle)] =
      [({ id := "A", pmid := "A", payload := "p", reference := "C;B",
          references := [{ pmid := "C", idArticle := none },
                         { pmid := "B", idArticle := some "B" }],
          updated := false } : Pubmed.StoredArticle)] := by
  have h : ∀ a ∈ [({ pmid := "A", payload := "p2", reference := "B;C" } : Pubmed.RawArticle)],
      ∃ e, Pubmed.find_one_id
          [({ id := "A", pmid := "A", payload := "p", reference := "C;B",
              references := [{ pmid := "C", idArticle := none },
                             { pmid := "B", idArticle := some "B" }],
              updated := false } : Pubmed.StoredArticle)] a.pmid = some e ∧
        Pubmed.sameSet (e.references.map (fun r => r.pmid))
          (Pubmed.newReferences a) = true := by
    intro a ha
    rw [List.mem_singleton] at ha
    subst ha
    exact ⟨_, rfl, by decide⟩
  exact ⟨h, merge_idempotent_ftp _ _ h⟩

/-- Counterexample for C1 as stated: in the `main.py` variant applying a
batch (one article `A` with no citations) and then re-merging the same
batch changes the store — the repeat flips `updated` from `False` (set
at insert) to `True` and rewrites the document, so merge is not
idempotent. -/
theorem merge_idempotent_cex :
    MainPy.mergeArticlePy
        (MainPy.mergeArticlePy [] { key := "A", payload := "p", refs := [] })
        { key := "A", payload := "p", refs := [] } ≠
      MainPy.mergeArticlePy [] { key := "A", payload := "p", refs := [] } ∧
    (MainPy.mergeArticlePy [] { key := "A", payload := "p", refs := [] }).map
        (fun d => d.updated) = [false] ∧
    (MainPy.mergeArticlePy
        (MainPy.mergeArticlePy [] { key := "A", payload := "p", refs := [] })
        { key := "A", payload := "p", refs := [] }).map
        (fun d => d.updated) = [true] := by
  decide

/-- Claim C5 (amended, FTP variant): when a republished raw record's
citation target set equals the stored record's citation set as an
unordered set, `update_database` performs no store write for that
record — the whole store is left unchanged, in particular `updated` is
not altered.  (The `main.py` variant has no change detection; see the
counterexample.) -/
theorem change_detection_noop_ftp (c : List Pubmed.StoredArticle)
    (a : Pubmed.RawArticle) (e : Pubmed.StoredArticle)
    (hfind : Pubmed.find_one_id c a.pmid = some e)
    (hsame : Pubmed.sameSet (e.references.map (fun r => r.pmid))
      (Pubmed.newReferences a) = true) :
    Pubmed.mergeArticle c a = c :=
  Pubmed.mergeArticle_noop hfind hsame

/-- Witness for C5: stored citations `[C, B]` against a republished
`"B;C"` — same set, different order — merge into a two-document store is
a no-op. -/
theorem change_detection_noop_ftp_witness :
    Pubmed.find_one_id
        [({ id := "X", pmid := "X", payload := "q", reference := "",
            references := [], updated := false } : Pubmed.StoredArticle),
         ({ id := "A", pmid := "A", payload := "p", reference := "C;B",
            references := [{ pmid := "C", idArticle := some "C" },
                           { pmid := "B", idArticle := none }],
            updated := false } : Pubmed.StoredArticle)]
        ("A" : String) =
      some ({ id := "A", pmid := "A", payload := "p", reference := "C;B",
              references := [{ pmid := "C", idArticle := some "C" },
                             { pmid := "B", idArticle := none }],
              updated := false } : Pubmed.StoredArticle) ∧
    Pubmed.mergeArticle
        [({ id := "X", pmid := "X", payload := "q", reference := "",
            references := [], updated := false } : Pubmed.StoredArticle),
         ({ id := "A", pmid := "A", payload := "p", reference := "C;B",
            references := [{ pmid := "C", idArticle := some "C" },
                           { pmid := "B", idArticle := none }],
            updated := false } : Pubmed.StoredArticle)]
        { pmid := "A", payload := "p9", reference := "B;C" } =
      [({ id := "X", pmid := "X", payload := "q", reference := "",
          references := [], updated := false } : Pubmed.StoredArticle),
       ({ id := "A", pmid := "A", payload := "p", reference := "C;B",
          references := [{ pmid := "C", idArticle := some "C" },
                         { pmid := "B", idArticle := none }],
          updated := false } : Pubmed.StoredArticle)] :=
  ⟨by decide,
    change_detection_noop_ftp _ _
      ({ id := "A", pmid := "A", payload := "p", reference := "C;B",
         references := [{ pmid := "C", idArticle := some "C" },
                        { pmid := "B", idArticle := none }],
         updated := false } : Pubmed.StoredArticle)
      (by decide) (by decide)⟩

/-- Counterexample for C5 as stated: in the `main.py` variant, a
republished record whose citation set `{A, B}` equals the stored set in
a different order is still rewritten — `updated` is set and the store
changes, because `process_files` compares nothing. -/
theorem change_detection_noop_cex :
    Pubmed.sameSet
        (([{ articleId := "A", referenceId := some "m2" },
           { articleId := "B", referenceId := none }] : List MainPy.PyRef).map
          (fun r => r.articleId))
        (["B", "A"] : List String) = true ∧
    MainPy.mergeArticlePy
        [({ mid := "m1", key := "X", payload := "p",
            refs := [{ articleId := "A", referenceId := some "m2" },
                     { articleId := "B", referenceId := none }],
            updated := false } : MainPy.PyDoc)]
        { key := "X", payload := "p", refs := ["B", "A"] } ≠
      [({ mid := "m1", key := "X", payload := "p",
          refs := [{ articleId := "A", referenceId := some "m2" },
                   { articleId := "B", referenceId := none }],
          updated := false } : MainPy.PyDoc)] ∧
    (MainPy.mergeArticlePy
        [({ mid := "m1", key := "X", payload := "p",
            refs := [{ articleId := "A", referenceId := some "m2" },
                     { articleId := "B", referenceId := none }],
            updated := false } : MainPy.PyDoc)]
        { key := "X", payload := "p", refs := ["B", "A"] }).map
        (fun d => d.updated) = [true] := by
  decide

/-- Claim C6 (amended): a raw record whose `externalId` is not in the
store is inserted as a new document whose citations come from the raw
citation list with `resolvedInternalId` null on every entry; the FTP
variant inserts it with `updated = true`, while the `main.py` variant
inserts it with `updated = false`.  Neither variant stores a batch
sequence number on the record (no code under `src/` writes such a
field). -/
theorem new_record_insert :
    (∀ (c : List Pubmed.StoredArticle) (a : Pubmed.RawArticle),
      Pubmed.find_one_id c a.pmid = none →
      ∃ d, Pubmed.mergeArticle c a = c ++ [d] ∧ d.id = a.pmid ∧ d.pmid = a.pmid ∧
        d.updated = true ∧
        d.references.map (fun r => r.pmid) = Pubmed.newReferences a ∧
        ∀ r ∈ d.references, r.idArticle = none) ∧
    (∀ (c : List MainPy.PyDoc) (a : MainPy.PyRaw),
      MainPy.find_one_key c a.key = none →
      ∃ d, MainPy.mergeArticlePy c a = c ++ [d] ∧ d.key = a.key ∧
        d.updated = false ∧
        d.refs.map (fun r => r.articleId) = a.refs ∧
        ∀ r ∈ d.refs, r.referenceId = none) := by
  constructor
  · intro c a h
    refine ⟨{ id := a.pmid, pmid := a.pmid, payload := a.payload,
              reference := a.reference, updated := true,
              references := Pubmed.referenceDocs a }, ?_, rfl, rfl, rfl, ?_, ?_⟩
    · unfold Pubmed.mergeArticle
      rw [h]
      rfl
    · simp only [Pubmed.referenceDocs, List.map_map]
      exact List.map_id _
    · intro r hr
      simp only [Pubmed.referenceDocs, List.mem_map] at hr
      rcases hr with ⟨x, _, rfl⟩
      rfl
  · intro c a h
    refine ⟨{ mid := MainPy.freshMid c, key := a.key, payload := a.payload,
              refs := a.refs.map (fun r => { articleId := r, referenceId := none }),
              updated := false }, ?_, rfl, rfl, ?_, ?_⟩
    · unfold MainPy.mergeArticlePy
      rw [h]
    · simp only [List.map_map]
      exact List.map_id _
    · intro r hr
      simp only [List.mem_map] at hr
      rcases hr with ⟨x, _, rfl⟩
      rfl

/-- Witness for C6: inserting article `A` citing `B` into an empty
store. -/
theorem new_record_insert_witness :
    Pubmed.find_one_id [] ("A" : String) = none ∧
    ∃ d, Pubmed.mergeArticle []
        ({ pmid := "A", payload := "p", reference := "B" } : Pubmed.RawArticle) =
        [] ++ [d] ∧ d.id = "A" ∧ d.pmid = "A" ∧ d.updated = true ∧
      d.references.map (fun r => r.pmid) =
        Pubmed.newReferences
          ({ pmid := "A", payload := "p", reference := "B" } : Pubmed.RawArticle) ∧
      ∀ r ∈ d.references, r.idArticle = none :=
  ⟨rfl, new_record_insert.1 []
    ({ pmid := "A", payload := "p", reference := "B" } : Pubmed.RawArticle) rfl⟩

/-- Counterexample for C6 as stated: in the `main.py` variant the
insert branch sets `updated = False` (line 60), not `true` as the claim
requires. -/
theorem new_record_insert_cex :
    (MainPy.mergeArticlePy [] { key := "A", payload := "p", refs := ["B"] }).map
        (fun d => d.updated) = [false] ∧
    ¬ (MainPy.mergeArticlePy [] { key := "A", payload := "p", refs := ["B"] }).map
        (fun d => d.updated) = [true] := by
  decide

/-- Claim C7 (amended): a malformed record does not leave the
already-merged records uncommitted — every well-formed record preceding
it is upserted and one error is reported — but it aborts the rest of the
batch: records after the malformed one are not processed and the
resolution pass does not run, because `update_database` wraps the whole
loop in a single try/except that re-raises. -/
theorem malformed_aborts_batch (c : List Pubmed.StoredArticle)
    (pre : List Pubmed.RawArticle) (msg : String) (post : List Pubmed.RawItem) :
    Pubmed.update_database_E c
        (pre.map Pubmed.RawItem.ok ++ Pubmed.RawItem.malformed msg :: post) =
      .error (msg, pre.foldl Pubmed.mergeArticle c) := by
  unfold Pubmed.update_database_E
  rw [Pubmed.mergeLoop_malformed]
  rfl

/-- Counterexample for C7 as stated: a batch of three records whose
second is malformed yields only one upsert (record 1); record 3 is
never processed — not the two upserts the claim requires. -/
theorem malformed_isolation_cex :
    Pubmed.update_database_E []
        [Pubmed.RawItem.ok { pmid := "A", payload := "p", reference := "" },
         Pubmed.RawItem.malformed "bad",
         Pubmed.RawItem.ok { pmid := "B", payload := "q", reference := "" }] =
      .error ("bad",
        [({ id := "A", pmid := "A", payload := "p", reference := "",
            references := [{ pmid := "", idArticle := none }],
            updated := true } : Pubmed.StoredArticle)]) ∧
    [({ id := "A", pmid := "A", payload := "p", reference := "",
        references := [{ pmid := "", idArticle := none }],
        updated := true } : Pubmed.StoredArticle)].map (fun d => d.id) = ["A"] := by
  decide

/-- Claim C4 (amended): `get_last_file` in the FTP variant is
`collection.find_one()` — it returns the first stored document in
natural order, an arbitrary document rather than the maximum — so the
watermark is the file number parsed from the first document's filename,
and 0 when the store is empty. -/
theorem watermark_first_doc :
    (∀ (f : String) (rest : List String) (k : Nat),
      Pubmed.parse_filename f = some k →
      Pubmed.lastNumberFtp (f :: rest) = Except.ok k) ∧
    Pubmed.lastNumberFtp [] = Except.ok 0 := by
  constructor
  · intro f rest k h
    unfold Pubmed.lastNumberFtp Pubmed.get_last_file
    simp [h]
  · rfl

/-- Witness for C4 (amended): the first document wins even when a later
document has a higher number; the empty store yields 0. -/
theorem watermark_first_doc_witness :
    Pubmed.parse_filename "pubmed23n0005.xml.gz" = some 5 ∧
    Pubmed.lastNumberFtp ["pubmed23n0005.xml.gz", "pubmed23n0009.xml.gz"] =
      Except.ok 5 :=
  ⟨by decide, watermark_first_doc.1 _ _ _ (by decide)⟩

/-- Counterexample for C4 as stated: with stored file numbers {3, 7} in
natural order, the FTP variant's watermark is 3, not the maximum 7 the
claim requires. -/
theorem watermark_cex :
    Pubmed.lastNumberFtp ["pubmed23n0003.xml.gz", "pubmed23n0007.xml.gz"] =
      Except.ok 3 ∧
    Pubmed.specWatermark ["pubmed23n0003.xml.gz", "pubmed23n0007.xml.gz"] = 7 ∧
    (3 : Nat) ≠ 7 := by
  decide

namespace Pubmed

theorem lastNumberFtp_error {docs : List String} {g : String}
    (h : lastNumberFtp docs = .error g) : parse_filename g = none := by
  unfold lastNumberFtp get_last_file at h
  cases docs with
  | nil => cases h
  | cons f rest =>
    simp only [List.head?_cons] at h
    cases hp : parse_filename f with
    | some k => rw [hp] at h; cases h
    | none =>
      rw [hp] at h
      simp only [Except.error.injEq] at h
      rw [← h]
      exact hp

theorem filterFilesE_bad {files : List String} {f : String} (n : Nat)
    (hmem : f ∈ files) (hbad : parse_filename f = none) :
    ∃ g, filterFilesE files n = .error g ∧ parse_filename g = none := by
  induction files with
  | nil => cases hmem
  | cons f0 fs ih =>
    cases hp : parse_filename f0 with
    | none =>
      refine ⟨f0, ?_, hp⟩
      unfold filterFilesE
      rw [hp]
    | some k =>
      have hmem' : f ∈ fs := by
        rcases List.mem_cons.mp hmem with h1 | h1
        · subst h1; rw [hp] at hbad; cases hbad
        · exact h1
      rcases ih hmem' with ⟨g, hg, hgbad⟩
      refine ⟨g, ?_, hgbad⟩
      unfold filterFilesE
      rw [hp, hg]

end Pubmed

/-- Claim C10: `parse_filename` returns the number of the first
`n&lt;digits&gt;.` occurrence and raises otherwise, and because `main`
applies it to every listed filename while filtering, one unparseable
listed filename aborts the whole run before any batch is processed —
the error state carries the store unchanged. -/
theorem filename_gates_run (c : List Pubmed.StoredArticle)
    (fetch : String → List Pubmed.RawItem) (wmDocs files : List String)
    (f : String) (hmem : f ∈ files) (hbad : Pubmed.parse_filename f = none) :
    ∃ g, Pubmed.mainFtpRun c fetch wmDocs files = .error (g, c) ∧
      Pubmed.parse_filename g = none := by
  cases hw : Pubmed.lastNumberFtp wmDocs with
  | error f0 =>
    refine ⟨f0, ?_, Pubmed.lastNumberFtp_error hw⟩
    unfold Pubmed.mainFtpRun
    simp only [hw]
  | ok n =>
    rcases Pubmed.filterFilesE_bad n hmem hbad with ⟨g, hg, hgbad⟩
    have hsel : Pubmed.ftpSelect files n = .error g := by
      unfold Pubmed.ftpSelect
      rw [hg]
      rfl
    refine ⟨g, ?_, hgbad⟩
    unfold Pubmed.mainFtpRun
    simp only [hw, hsel]

/-- Witness for C10: a listing containing `README.txt` (no
`n&lt;digits&gt;.` segment) aborts the run with the store unchanged,
even though the other filename is valid. -/
theorem filename_gates_run_witness :
    ("README.txt" ∈ ["pubmed23n0001.xml.gz", "README.txt"]) ∧
    Pubmed.parse_filename "README.txt" = none ∧
    ∃ g, Pubmed.mainFtpRun [] (fun _ => []) []
        ["pubmed23n0001.xml.gz", "README.txt"] = .error (g, []) ∧
      Pubmed.parse_filename g = none :=
  ⟨by decide, by decide,
    filename_gates_run [] (fun _ => []) [] ["pubmed23n0001.xml.gz", "README.txt"]
      "README.txt" (by decide) (by decide)⟩

namespace Pubmed

theorem filterFilesE_ok {files : List String} {n : Nat} {l : List String}
    (h : filterFilesE files n = .ok l) :
    l = files.filter (fun f => decide (n < fileNum f)) ∧
    ∀ f ∈ files, (parse_filename f).isSome = true := by
  induction files generalizing l with
  | nil =>
    unfold filterFilesE at h
    simp only [Except.ok.injEq] at h
    subst h
    exact ⟨rfl, by intro f hf; cases hf⟩
  | cons f0 fs ih =>
    unfold filterFilesE at h
    cases hp : parse_filename f0 with
    | none => rw [hp] at h; cases h
    | some k =>
      rw [hp] at h
      cases hr : filterFilesE fs n with
      | error g => rw [hr] at h; cases h
      | ok l2 =>
        rw [hr] at h
        simp only [Except.ok.injEq] at h
        rcases ih hr with ⟨h1, h2⟩
        have hk : fileNum f0 = k := by
          unfold fileNum
          rw [hp]
          rfl
        constructor
        · rw [← h, List.filter_cons]
          by_cases hlt : n < k
          · simp [hk, hlt, h1]
          · simp [hk, hlt, h1]
        · intro f hf
          rcases List.mem_cons.mp hf with h3 | h3
          · subst h3; rw [hp]; rfl
          · exact h2 f h3

theorem ftpSelect_ok {files : List String} {n : Nat} {sel : List String}
    (h : ftpSelect files n = .ok sel) :
    ∃ l, filterFilesE files n = .ok l ∧ sel = sortByNum l := by
  unfold ftpSelect at h
  cases hr : filterFilesE files n with
  | error g => rw [hr] at h; cases h
  | ok l =>
    rw [hr] at h
    simp only [Except.map, Except.ok.injEq] at h
    exact ⟨l, rfl, h.symm⟩

end Pubmed

/-- Claim C8 (amended, FTP variant): when the filter over the listed
filenames succeeds, the selected list contains exactly the files whose
parsed number exceeds the watermark, and it is processed in ascending
parsed-number order.  (The `main.py` variant sorts the filtered links as
plain strings, which is ascending batch order only for equal-width
zero-padded numbers; see the counterexample.) -/
theorem batch_selection_order_ftp (files : List String) (n : Nat)
    (sel : List String) (h : Pubmed.ftpSelect files n = .ok sel) :
    (∀ f, f ∈ sel ↔ (f ∈ files ∧ ∃ k, Pubmed.parse_filename f = some k ∧ n < k)) ∧
    List.Sorted (fun a b => Pubmed.fileNum a ≤ Pubmed.fileNum b) sel := by
  rcases Pubmed.ftpSelect_ok h with ⟨l, hl, hsel⟩
  rcases Pubmed.filterFilesE_ok hl with ⟨hfilt, hsome⟩
  subst hsel
  subst hfilt
  constructor
  · intro f
    have hperm :
        (Pubmed.sortByNum (files.filter (fun f => decide (n < Pubmed.fileNum f)))).Perm
          (files.filter (fun f => decide (n < Pubmed.fileNum f))) :=
      List.perm_insertionSort _ _
    rw [hperm.mem_iff, List.mem_filter]
    constructor
    · rintro ⟨hmem, hdec⟩
      have hlt := of_decide_eq_true hdec
      rcases Option.isSome_iff_exists.mp (hsome f hmem) with ⟨k, hk⟩
      have hkeq : Pubmed.fileNum f = k := by
        unfold Pubmed.fileNum
        rw [hk]
        rfl
      exact ⟨hmem, k, hk, hkeq ▸ hlt⟩
    · rintro ⟨hmem, k, hk, hnk⟩
      refine ⟨hmem, decide_eq_true ?_⟩
      have hkeq : Pubmed.fileNum f = k := by
        unfold Pubmed.fileNum
        rw [hk]
        rfl
      rw [hkeq]
      exact hnk
  · unfold Pubmed.sortByNum
    haveI : IsTotal String (fun a b => Pubmed.fileNum a ≤ Pubmed.fileNum b) :=
      ⟨fun a b => Nat.le_total _ _⟩
    haveI : IsTrans String (fun a b => Pubmed.fileNum a ≤ Pubmed.fileNum b) :=
      ⟨fun a b c h1 h2 => Nat.le_trans h1 h2⟩
    exact List.sorted_insertionSort _ _

/-- Witness for C8: a listing {7, 3, 5} with watermark 3 selects exactly
{5, 7} and processes them in ascending order. -/
theorem batch_selection_order_ftp_witness :
    Pubmed.ftpSelect
        ["pubmed23n0007.xml.gz", "pubmed23n0003.xml.gz", "pubmed23n0005.xml.gz"] 3 =
      .ok ["pubmed23n0005.xml.gz", "pubmed23n0007.xml.gz"] ∧
    (∀ f, f ∈ ["pubmed23n0005.xml.gz", "pubmed23n0007.xml.gz"] ↔
      (f ∈ ["pubmed23n0007.xml.gz", "pubmed23n0003.xml.gz", "pubmed23n0005.xml.gz"] ∧
        ∃ k, Pubmed.parse_filename f = some k ∧ 3 < k)) ∧
    List.Sorted (fun a b => Pubmed.fileNum a ≤ Pubmed.fileNum b)
      ["pubmed23n0005.xml.gz", "pubmed23n0007.xml.gz"] :=
  ⟨by decide,
    batch_selection_order_ftp
      ["pubmed23n0007.xml.gz", "pubmed23n0003.xml.gz", "pubmed23n0005.xml.gz"] 3
      ["pubmed23n0005.xml.gz", "pubmed23n0007.xml.gz"] (by decide)⟩

/-- Counterexample for C8 as stated: `main.py` sorts the filtered links
with plain `sorted(links)`; with files numbered 9 and 10 the processing
order is [10, 9] — not ascending batch order. -/
theorem batch_selection_order_cex :
    MainPy.selectPy ["pubmed23n9.xml.gz", "pubmed23n10.xml.gz"] 0 =
      ["pubmed23n10.xml.gz", "pubmed23n9.xml.gz"] ∧
    Pubmed.get_file_number "pubmed23n10.xml.gz" = some 10 ∧
    Pubmed.get_file_number "pubmed23n9.xml.gz" = some 9 ∧
    ¬ ((10 : Nat) ≤ 9) := by
  decide

namespace Pubmed

theorem mergeArticle_changed {c : List StoredArticle} {a : RawArticle}
    {e : StoredArticle} (hf : find_one_id c a.pmid = some e)
    (hs : sameSet (e.references.map (fun r => r.pmid)) (newReferences a) = false) :
    mergeArticle c a = update_one_id c e.id (setArticle a) := by
  unfold mergeArticle
  rw [hf]
  simp [hs]

theorem mergeArticle_absent {c : List StoredArticle} {a : RawArticle}
    (hf : find_one_id c a.pmid = none) :
    mergeArticle c a = c ++ [newDoc a] := by
  unfold mergeArticle
  rw [hf]

theorem countId_update_one_id (i : String) (f : StoredArticle → StoredArticle)
    (hf : ∀ e, (f e).id = e.id) (c : List StoredArticle) (x : String) :
    countId (update_one_id c i f) x = countId c x := by
  unfold countId
  rw [update_one_id_map_id i f hf]

theorem countId_append_one (c : List StoredArticle) (d : StoredArticle) (x : String) :
    countId (c ++ [d]) x = countId c x + if d.id == x then 1 else 0 := by
  unfold countId
  rw [List.map_append]
  simp [List.count_append, List.count_cons]

theorem find_one_id_none_count {c : List StoredArticle} {x : String}
    (h : find_one_id c x = none) : countId c x = 0 := by
  unfold countId
  rw [List.count_eq_zero]
  intro hx
  rcases List.mem_map.mp hx with ⟨d, hd, hdi⟩
  exact (find_one_id_eq_none.mp h d hd) hdi

theorem find_one_id_some_count {c : List StoredArticle} {x : String}
    {e : StoredArticle} (h : find_one_id c x = some e) : 0 < countId c x := by
  rcases find_one_id_mem h with ⟨hm, hid⟩
  unfold countId
  rw [List.count_pos_iff]
  exact List.mem_map.mpr ⟨e, hm, hid⟩

theorem countId_merge_le {c : List StoredArticle} {a : RawArticle} {x : String}
    (h : countId c x ≤ 1) : countId (mergeArticle c a) x ≤ 1 := by
  cases hf : find_one_id c a.pmid with
  | some e =>
    cases hs : sameSet (e.references.map (fun r => r.pmid)) (newReferences a) with
    | true => rw [mergeArticle_noop hf hs]; exact h
    | false =>
      rw [mergeArticle_changed hf hs,
        countId_update_one_id e.id (setArticle a) (fun e2 => rfl)]
      exact h
  | none =>
    rw [mergeArticle_absent hf, countId_append_one]
    by_cases hx : a.pmid = x
    · subst hx
      rw [find_one_id_none_count hf]
      simp [newDoc]
    · have : (newDoc a).id = a.pmid := rfl
      rw [this, if_neg (by simpa using hx)]
      simpa using h

theorem countId_merge_ge {c : List StoredArticle} {a : RawArticle} {x : String} :
    countId c x ≤ countId (mergeArticle c a) x := by
  cases hf : find_one_id c a.pmid with
  | some e =>
    cases hs : sameSet (e.references.map (fun r => r.pmid)) (newReferences a) with
    | true => rw [mergeArticle_noop hf hs]
    | false =>
      rw [mergeArticle_changed hf hs,
        countId_update_one_id e.id (setArticle a) (fun e2 => rfl)]
  | none =>
    rw [mergeArticle_absent hf, countId_append_one]
    exact Nat.le_add_right _ _

theorem countId_merge_self {c : List StoredArticle} {a : RawArticle}
    (h : countId c a.pmid ≤ 1) : countId (mergeArticle c a) a.pmid = 1 := by
  cases hf : find_one_id c a.pmid with
  | some e =>
    have h1 : 0 < countId c a.pmid := find_one_id_some_count hf
    have h2 : countId c a.pmid = 1 := Nat.le_antisymm h h1
    cases hs : sameSet (e.references.map (fun r => r.pmid)) (newReferences a) with
    | true => rw [mergeArticle_noop hf hs]; exact h2
    | false =>
      rw [mergeArticle_changed hf hs,
        countId_update_one_id e.id (setArticle a) (fun e2 => rfl)]
      exact h2
  | none =>
    rw [mergeArticle_absent hf, countId_append_one, find_one_id_none_count hf]
    simp [newDoc]

theorem countU_merge_fold (batch : List RawArticle) :
    ∀ {c : List StoredArticle}, (∀ x, countId c x ≤ 1) →
      ∀ x, countId (batch.foldl mergeArticle c) x ≤ 1 := by
  induction batch with
  | nil => intro c h; exact h
  | cons a rest ih =>
    intro c h x
    exact ih (fun y => countId_merge_le (h y)) x

theorem countId_merge_fold_ge (batch : List RawArticle) :
    ∀ {c : List StoredArticle} {x : String},
      countId c x ≤ countId (batch.foldl mergeArticle c) x := by
  induction batch with
  | nil => intro c x; exact Nat.le_refl _
  | cons a rest ih =>
    intro c x
    exact Nat.le_trans countId_merge_ge ih

theorem countId_merge_fold_self (batch : List RawArticle) {a : RawArticle}
    (ha : a ∈ batch) :
    ∀ {c : List StoredArticle}, (∀ x, countId c x ≤ 1) →
      countId (batch.foldl mergeArticle c) a.pmid = 1 := by
  induction batch with
  | nil => cases ha
  | cons a0 rest ih =>
    intro c h
    rw [List.foldl_cons]
    rcases List.mem_cons.mp ha with h1 | h1
    · subst h1
      have hstep : countId (mergeArticle c a) a.pmid = 1 :=
        countId_merge_self (h a.pmid)
      have hge : 1 ≤ countId (rest.foldl mergeArticle (mergeArticle c a)) a.pmid :=
        hstep ▸ countId_merge_fold_ge rest
      have hle : countId (rest.foldl mergeArticle (mergeArticle c a)) a.pmid ≤ 1 :=
        countU_merge_fold rest (fun y => countId_merge_le (h y)) a.pmid
      exact Nat.le_antisymm hle hge
    · exact ih h1 (fun y => countId_merge_le (h y))

theorem countId_resolve_fold (x : String) :
    ∀ (todo acc : List StoredArticle),
      countId (todo.foldl resolveStep acc) x = countId acc x
  | [], _ => rfl
  | d :: rest, acc => by
    rw [List.foldl_cons, countId_resolve_fold x rest]
    unfold resolveStep
    exact countId_update_one_id d.id
      (clearAndSet (resolveRefs acc d.references)) (fun e => rfl) acc x

theorem countId_resolvePhase (c : List StoredArticle) (x : String) :
    countId (resolvePhase c) x = countId c x :=
  countId_resolve_fold x _ c

theorem countId_update_database_le {c : List StoredArticle}
    {b : List RawArticle} (h : ∀ x, countId c x ≤ 1) (x : String) :
    countId (update_database c b) x ≤ 1 := by
  unfold update_database
  rw [countId_resolvePhase]
  exact countU_merge_fold b h x

theorem countId_update_database_ge {c : List StoredArticle}
    {b : List RawArticle} {x : String} :
    countId c x ≤ countId (update_database c b) x := by
  unfold update_database
  rw [countId_resolvePhase]
  exact countId_merge_fold_ge b

theorem countId_update_database_self {c : List StoredArticle}
    {b : List RawArticle} {a : RawArticle} (ha : a ∈ b)
    (h : ∀ x, countId c x ≤ 1) :
    countId (update_database c b) a.pmid = 1 := by
  unfold update_database
  rw [countId_resolvePhase]
  exact countId_merge_fold_self b ha h

theorem countU_processBatches (batches : List (List RawArticle)) :
    ∀ {c : List StoredArticle}, (∀ x, countId c x ≤ 1) →
      ∀ x, countId (processBatches c batches) x ≤ 1 := by
  induction batches with
  | nil => intro c h; exact h
  | cons b bs ih =>
    intro c h x
    exact ih (fun y => countId_update_database_le h y) x

theorem countId_processBatches_ge (batches : List (List RawArticle)) :
    ∀ {c : List StoredArticle} {x : String},
      countId c x ≤ countId (processBatches c batches) x := by
  induction batches with
  | nil => intro c x; exact Nat.le_refl _
  | cons b bs ih =>
    intro c x
    exact Nat.le_trans countId_update_database_ge ih

end Pubmed

/-- Claim C2: after any sequence of merged batches from a store with at
most one document per `_id`, the store still has at most one document
per `_id`, and every `externalId` (pmid) occurring in any batch — any
number of times — is stored exactly once: merge updates the existing
document instead of inserting a second one. -/
theorem no_duplicates (c : List Pubmed.StoredArticle)
    (batches : List (List Pubmed.RawArticle))
    (hU : ∀ x, Pubmed.countId c x ≤ 1) :
    (∀ x, Pubmed.countId (Pubmed.processBatches c batches) x ≤ 1) ∧
    (∀ (b : List Pubmed.RawArticle) (a : Pubmed.RawArticle), b ∈ batches → a ∈ b →
      Pubmed.countId (Pubmed.processBatches c batches) a.pmid = 1) := by
  refine ⟨Pubmed.countU_processBatches batches hU, ?_⟩
  induction batches generalizing c with
  | nil => intro b a hb; cases hb
  | cons b0 bs ih =>
    intro b a hb ha
    rcases List.mem_cons.mp hb with h1 | h1
    · subst h1
      have hstep : Pubmed.countId (Pubmed.update_database c b) a.pmid = 1 :=
        Pubmed.countId_update_database_self ha hU
      have hge : 1 ≤ Pubmed.countId (Pubmed.processBatches (Pubmed.update_database c b) bs) a.pmid :=
        hstep ▸ Pubmed.countId_processBatches_ge bs
      have hle : Pubmed.countId (Pubmed.processBatches (Pubmed.update_database c b) bs) a.pmid ≤ 1 :=
        Pubmed.countU_processBatches bs (fun y => Pubmed.countId_update_database_le hU y) a.pmid
      exact Nat.le_antisymm hle hge
    · exact ih _ (fun y => Pubmed.countId_update_database_le hU y) _ a h1 ha

/-- Witness for C2: the same `externalId` appearing in two batches (and
once more in the second) ends up stored exactly once. -/
theorem no_duplicates_witness :
    (∀ x, Pubmed.countId [] x ≤ 1) ∧
    Pubmed.countId
      (Pubmed.processBatches []
        [[{ pmid := "A", payload := "p", reference := "B" }],
         [{ pmid := "A", payload := "p2", reference := "C" },
          { pmid := "A", payload := "p3", reference := "C" }]])
      "A" = 1 := by
  have hU : ∀ x, Pubmed.countId [] x ≤ 1 := by
    intro x
    simp [Pubmed.countId]
  refine ⟨hU, ?_⟩
  exact (no_duplicates []
      [[{ pmid := "A", payload := "p", reference := "B" }],
       [{ pmid := "A", payload := "p2", reference := "C" },
        { pmid := "A", payload := "p3", reference := "C" }]] hU).2
    [{ pmid := "A", payload := "p2", reference := "C" },
     { pmid := "A", payload := "p3", reference := "C" }]
    { pmid := "A", payload := "p3", reference := "C" } (by decide) (by decide)

namespace Pubmed

theorem find_one_id_map_congr {c1 c2 : List StoredArticle} (p : String)
    (h : c1.map (fun d => d.id) = c2.map (fun d => d.id)) :
    (find_one_id c1 p).map (fun d => d.id) =
      (find_one_id c2 p).map (fun d => d.id) := by
  unfold find_one_id
  calc (c1.find? (fun d => d.id == p)).map (fun d => d.id)
      = (c1.find? ((fun s => s == p) ∘ (fun d : StoredArticle => d.id))).map
          (fun d => d.id) := rfl
    _ = (c1.map (fun d => d.id)).find? (fun s => s == p) :=
        (List.find?_map _ _).symm
    _ = (c2.map (fun d => d.id)).find? (fun s => s == p) := by rw [h]
    _ = (c2.find? ((fun s => s == p) ∘ (fun d : StoredArticle => d.id))).map
          (fun d => d.id) := List.find?_map _ _
    _ = (c2.find? (fun d => d.id == p)).map (fun d => d.id) := rfl

theorem resolveRefs_congr {c1 c2 : List StoredArticle} (refs : List Ref)
    (h : c1.map (fun d => d.id) = c2.map (fun d => d.id)) :
    resolveRefs c1 refs = resolveRefs c2 refs := by
  unfold resolveRefs
  apply List.map_congr_left
  intro r _
  have hm := find_one_id_map_congr r.pmid h
  cases h1 : find_one_id c1 r.pmid with
  | none =>
    cases h2 : find_one_id c2 r.pmid with
    | none => rfl
    | some t2 => rw [h1, h2] at hm; cases hm
  | some t1 =>
    cases h2 : find_one_id c2 r.pmid with
    | none => rw [h1, h2] at hm; cases hm
    | some t2 =>
      rw [h1, h2] at hm
      have hid : t1.id = t2.id := by simpa using hm
      show ({ pmid := r.pmid, idArticle := some t1.id } : Ref) =
        { pmid := r.pmid, idArticle := some t2.id }
      rw [hid]

theorem find_one_id_nodup_self {c : List StoredArticle}
    (hnd : (c.map (fun d => d.id)).Nodup) {d : StoredArticle} (hd : d ∈ c) :
    find_one_id c d.id = some d := by
  induction c with
  | nil => cases hd
  | cons e rest ih =>
    rw [List.map_cons, List.nodup_cons] at hnd
    rcases List.mem_cons.mp hd with h1 | h1
    · subst h1
      unfold find_one_id
      exact @List.find?_cons_of_pos _ (fun d2 => d2.id == d.id) d rest (by simp)
    · have hne : ¬ (e.id == d.id) = true := by
        simp only [beq_iff_eq]
        intro hcontra
        exact hnd.1 (hcontra ▸ List.mem_map.mpr ⟨d, h1, rfl⟩)
      unfold find_one_id
      rw [@List.find?_cons_of_neg _ (fun d2 => d2.id == d.id) e rest hne]
      exact ih hnd.2 h1

theorem find_one_id_update_ne (i j : String) (f : StoredArticle → StoredArticle)
    (hne : j ≠ i) (hf : ∀ e, (f e).id = e.id) :
    ∀ c : List StoredArticle,
      find_one_id (update_one_id c i f) j = find_one_id c j
  | [] => rfl
  | d :: rest => by
    have hij : i ≠ j := fun hc => hne hc.symm
    unfold update_one_id
    by_cases hd : d.id = i
    · rw [if_pos (by simpa using hd)]
      have h1 : ¬ ((f d).id == j) = true := by
        simp only [beq_iff_eq, hf d, hd]
        exact hij
      have h2 : ¬ (d.id == j) = true := by
        simp only [beq_iff_eq, hd]
        exact hij
      unfold find_one_id
      rw [@List.find?_cons_of_neg _ (fun d2 => d2.id == j) (f d) rest h1,
        @List.find?_cons_of_neg _ (fun d2 => d2.id == j) d rest h2]
    · rw [if_neg (by simpa using hd)]
      unfold find_one_id
      by_cases hj : d.id = j
      · have hb : ((fun d2 : StoredArticle => d2.id == j) d) = true := by
          simpa using hj
        rw [@List.find?_cons_of_pos _ (fun d2 => d2.id == j) d
            (update_one_id rest i f) hb,
          @List.find?_cons_of_pos _ (fun d2 => d2.id == j) d rest hb]
      · have hb : ¬ ((fun d2 : StoredArticle => d2.id == j) d) = true := by
          simpa using hj
        rw [@List.find?_cons_of_neg _ (fun d2 => d2.id == j) d
            (update_one_id rest i f) hb,
          @List.find?_cons_of_neg _ (fun d2 => d2.id == j) d rest hb]
        exact find_one_id_update_ne i j f hne hf rest

theorem find_one_id_update_self (i : String) (f : StoredArticle → StoredArticle)
    (hf : ∀ e, (f e).id = e.id) :
    ∀ {c : List StoredArticle} {e : StoredArticle},
      find_one_id c i = some e →
      find_one_id (update_one_id c i f) i = some (f e) := by
  intro c
  induction c with
  | nil => intro e h; cases h
  | cons d rest ih =>
    intro e h
    unfold update_one_id
    by_cases hd : d.id = i
    · have hb : ((fun d2 : StoredArticle => d2.id == i) d) = true := by
        simpa using hd
      rw [if_pos hb]
      unfold find_one_id at h ⊢
      rw [@List.find?_cons_of_pos _ (fun d2 => d2.id == i) d rest hb] at h
      have he : d = e := by simpa using h
      subst he
      exact @List.find?_cons_of_pos _ (fun d2 => d2.id == i) (f d) rest
        (by simp only [beq_iff_eq, hf d]; simpa using hb)
    · have hb : ¬ ((fun d2 : StoredArticle => d2.id == i) d) = true := by
        simpa using hd
      rw [if_neg hb]
      unfold find_one_id at h ⊢
      rw [@List.find?_cons_of_neg _ (fun d2 => d2.id == i) d rest hb] at h
      rw [@List.find?_cons_of_neg _ (fun d2 => d2.id == i) d
        (update_one_id rest i f) hb]
      exact ih h

end Pubmed

namespace Pubmed

theorem resolve_fold_spec (c : List StoredArticle) :
    ∀ (todo acc : List StoredArticle),
      acc.map (fun d => d.id) = c.map (fun d => d.id) →
      (acc.map (fun d => d.id)).Nodup →
      (todo.map (fun d => d.id)).Nodup →
      (∀ d ∈ todo, find_one_id acc d.id = some d) →
      (∀ d ∈ todo, find_one_id (todo.foldl resolveStep acc) d.id =
          some (clearAndSet (resolveRefs c d.references) d)) ∧
      (∀ j, (∀ d ∈ todo, d.id ≠ j) →
          find_one_id (todo.foldl resolveStep acc) j = find_one_id acc j) := by
  intro todo
  induction todo with
  | nil =>
    intro acc hmap hnda hndt hfind
    exact ⟨fun d hd => absurd hd (List.not_mem_nil d), fun j _ => rfl⟩
  | cons d rest ih =>
    intro acc hmap hnda hndt hfind
    rw [List.map_cons, List.nodup_cons] at hndt
    have hstep : resolveStep acc d =
        update_one_id acc d.id (clearAndSet (resolveRefs acc d.references)) := rfl
    have hfid : ∀ e, (clearAndSet (resolveRefs acc d.references) e).id = e.id :=
      fun e => rfl
    have hmap' : (resolveStep acc d).map (fun d2 => d2.id) =
        acc.map (fun d2 => d2.id) := by
      rw [hstep]
      exact update_one_id_map_id d.id _ hfid acc
    have hresolve_eq : resolveRefs acc d.references = resolveRefs c d.references :=
      resolveRefs_congr d.references hmap
    have hfind' : ∀ d' ∈ rest, find_one_id (resolveStep acc d) d'.id = some d' := by
      intro d' hd'
      have hne : d'.id ≠ d.id := by
        intro hc
        exact hndt.1 (hc ▸ List.mem_map.mpr ⟨d', hd', rfl⟩)
      rw [hstep, find_one_id_update_ne d.id d'.id _ hne hfid acc]
      exact hfind d' (List.mem_cons_of_mem _ hd')
    have ihres := ih (resolveStep acc d) (hmap'.trans hmap)
      (by rw [hmap']; exact hnda) hndt.2 hfind'
    constructor
    · intro d'' hd''
      rcases List.mem_cons.mp hd'' with h1 | h1
      · subst h1
        have hnj : ∀ d' ∈ rest, d'.id ≠ d''.id := by
          intro d' hd' hc
          exact hndt.1 (hc ▸ List.mem_map.mpr ⟨d', hd', rfl⟩)
        rw [List.foldl_cons, ihres.2 d''.id hnj, hstep,
          find_one_id_update_self d''.id _ hfid
            (hfind d'' (List.mem_cons_self ..)), hresolve_eq]
      · rw [List.foldl_cons]
        exact ihres.1 d'' h1
    · intro j hj
      have hne : j ≠ d.id := fun hc => (hj d (List.mem_cons_self ..)) hc.symm
      rw [List.foldl_cons,
        ihres.2 j (fun d' hd' => hj d' (List.mem_cons_of_mem _ hd')), hstep,
        find_one_id_update_ne d.id j _ hne hfid acc]

theorem resolvePhase_dirty {c : List StoredArticle}
    (hnd : (c.map (fun d => d.id)).Nodup) {d : StoredArticle}
    (hd : d ∈ c) (hdu : d.updated = true) :
    find_one_id (resolvePhase c) d.id =
      some (clearAndSet (resolveRefs c d.references) d) := by
  unfold resolvePhase
  have htodo : d ∈ c.filter (fun d2 => d2.updated) :=
    List.mem_filter.mpr ⟨hd, by simp [hdu]⟩
  have hsub : ((c.filter (fun d2 => d2.updated)).map (fun d2 => d2.id)).Nodup :=
    List.Nodup.sublist ((c.filter_sublist).map _) hnd
  have hfind : ∀ d' ∈ c.filter (fun d2 => d2.updated),
      find_one_id c d'.id = some d' :=
    fun d' hd' => find_one_id_nodup_self hnd (List.mem_filter.mp hd').1
  exact (resolve_fold_spec c (c.filter (fun d2 => d2.updated)) c rfl hnd
    hsub hfind).1 d htodo

end Pubmed

namespace MainPy

theorem update_one_mid_map_upd (m : String) (f : PyDoc → PyDoc)
    (hf : ∀ e, (f e).updated = e.updated) :
    ∀ c : List PyDoc,
      (update_one_mid c m f).map (fun d => d.updated) =
        c.map (fun d => d.updated)
  | [] => rfl
  | d :: rest => by
    unfold update_one_mid
    by_cases h : d.mid = m
    · simp [h, hf]
    · simp only [List.map_cons]
      rw [if_neg (by simpa using h)]
      simp [update_one_mid_map_upd m f hf rest]

theorem resolveOnePy_map_upd (did : String) (r : PyRef) (acc : List PyDoc) :
    (resolveOnePy did acc r).map (fun d => d.updated) =
      acc.map (fun d => d.updated) := by
  unfold resolveOnePy
  cases hf : find_one_key acc r.articleId with
  | none => rfl
  | some t =>
    exact update_one_mid_map_upd did
      (fun e => { e with refs := setFirstRef e.refs r.articleId t.mid })
      (fun e => rfl) acc

theorem resolveDocPy_map_upd (d : PyDoc) :
    ∀ (refs : List PyRef) (acc : List PyDoc),
      (refs.foldl (resolveOnePy d.mid) acc).map (fun d2 => d2.updated) =
        acc.map (fun d2 => d2.updated)
  | [], _ => rfl
  | r :: rest, acc => by
    rw [List.foldl_cons, resolveDocPy_map_upd d rest]
    exact resolveOnePy_map_upd d.mid r acc

theorem update_referencesPy_fold_map_upd :
    ∀ (todo acc : List PyDoc),
      (todo.foldl resolveDocPy acc).map (fun d => d.updated) =
        acc.map (fun d => d.updated)
  | [], _ => rfl
  | d :: rest, acc => by
    rw [List.foldl_cons, update_referencesPy_fold_map_upd rest]
    exact resolveDocPy_map_upd d d.refs acc

theorem update_referencesPy_map_upd (c : List PyDoc) :
    (update_referencesPy c).map (fun d => d.updated) =
      c.map (fun d => d.updated) :=
  update_referencesPy_fold_map_upd _ c

end MainPy

/-- Claim C3 (amended): in the FTP variant, when the resolution pass runs
on a store with distinct `_id`s, every dirty record ends up with
`updated = false` and with its citation list rewritten by `resolveRefs`:
a citation whose target `_id` is present gets `idArticle` set to that
target's `_id`, and a citation whose target is absent is left unchanged
(so a null `idArticle` stays null).  In the `main.py` variant,
`update_references` resolves citations but never clears any `updated`
flag. -/
theorem reference_resolution :
    (∀ (c : List Pubmed.StoredArticle) (d : Pubmed.StoredArticle),
      (c.map (fun d2 => d2.id)).Nodup → d ∈ c → d.updated = true →
      ∃ d', Pubmed.find_one_id (Pubmed.resolvePhase c) d.id = some d' ∧
        d'.updated = false ∧
        d'.references = Pubmed.resolveRefs c d.references) ∧
    (∀ (c : List Pubmed.StoredArticle) (refs : List Pubmed.Ref) (i : Nat)
        (r : Pubmed.Ref), refs[i]? = some r →
      (Pubmed.find_one_id c r.pmid = none →
        (Pubmed.resolveRefs c refs)[i]? = some r) ∧
      (∀ t, Pubmed.find_one_id c r.pmid = some t →
        (Pubmed.resolveRefs c refs)[i]? =
          some { r with idArticle := some t.id })) ∧
    (∀ c : List MainPy.PyDoc,
      (MainPy.update_referencesPy c).map (fun d => d.updated) =
        c.map (fun d => d.updated)) := by
  refine ⟨?_, ?_, MainPy.update_referencesPy_map_upd⟩
  · intro c d hnd hd hdu
    exact ⟨_, Pubmed.resolvePhase_dirty hnd hd hdu, rfl, rfl⟩
  · intro c refs i r hi
    unfold Pubmed.resolveRefs
    rw [List.getElem?_map, hi]
    constructor
    · intro hnone
      simp [hnone]
    · intro t ht
      simp [ht]

/-- Witness for C3: a dirty record `A` citing the present `B` and the
absent `Z`; after the resolution pass `A` is clean, its citation to `B`
is resolved to `B`'s `_id` and its citation to `Z` stays null. -/
theorem reference_resolution_witness :
    (([({ id := "A", pmid := "A", payload := "pa", reference := "B;Z",
          references := [{ pmid := "B", idArticle := none },
                         { pmid := "Z", idArticle := none }],
          updated := true } : Pubmed.StoredArticle),
       ({ id := "B", pmid := "B", payload := "pb", reference := "",
          references := [{ pmid := "", idArticle := none }],
          updated := false } : Pubmed.StoredArticle)].map
        (fun d2 => d2.id)).Nodup) ∧
    (∃ d', Pubmed.find_one_id
        (Pubmed.resolvePhase
          [({ id := "A", pmid := "A", payload := "pa", reference := "B;Z",
              references := [{ pmid := "B", idArticle := none },
                             { pmid := "Z", idArticle := none }],
              updated := true } : Pubmed.StoredArticle),
           ({ id := "B", pmid := "B", payload := "pb", reference := "",
              references := [{ pmid := "", idArticle := none }],
              updated := false } : Pubmed.StoredArticle)])
        ("A" : String) = some d' ∧
      d'.updated = false ∧
      d'.references =
        Pubmed.resolveRefs
          [({ id := "A", pmid := "A", payload := "pa", reference := "B;Z",
              references := [{ pmid := "B", idArticle := none },
                             { pmid := "Z", idArticle := none }],
              updated := true } : Pubmed.StoredArticle),
           ({ id := "B", pmid := "B", payload := "pb", reference := "",
              references := [{ pmid := "", idArticle := none }],
              updated := false } : Pubmed.StoredArticle)]
          [{ pmid := "B", idArticle := none },
           { pmid := "Z", idArticle := none }]) :=
  ⟨by decide,
    reference_resolution.1
      [({ id := "A", pmid := "A", payload := "pa", reference := "B;Z",
          references := [{ pmid := "B", idArticle := none },
                         { pmid := "Z", idArticle := none }],
          updated := true } : Pubmed.StoredArticle),
       ({ id := "B", pmid := "B", payload := "pb", reference := "",
          references := [{ pmid := "", idArticle := none }],
          updated := false } : Pubmed.StoredArticle)]
      ({ id := "A", pmid := "A", payload := "pa", reference := "B;Z",
         references := [{ pmid := "B", idArticle := none },
                        { pmid := "Z", idArticle := none }],
         updated := true } : Pubmed.StoredArticle)
      (by decide) (by decide) (by decide)⟩

/-- Counterexample for C3 as stated: in the `main.py` variant a dirty
record stays dirty after `update_references` runs — here `A` cites `B`,
the citation is resolved to `B`'s internal id, yet `A`'s `updated` flag
is still `True` afterwards, so the dirty flag is not cleared. -/
theorem reference_resolution_cex :
    MainPy.update_referencesPy
        [({ mid := "m1", key := "A", payload := "p",
            refs := [{ articleId := "B", referenceId := none }],
            updated := true } : MainPy.PyDoc),
         ({ mid := "m2", key := "B", payload := "q", refs := [],
            updated := false } : MainPy.PyDoc)] =
      [({ mid := "m1", key := "A", payload := "p",
          refs := [{ articleId := "B", referenceId := some "m2" }],
          updated := true } : MainPy.PyDoc),
       ({ mid := "m2", key := "B", payload := "q", refs := [],
          updated := false } : MainPy.PyDoc)] ∧
    (MainPy.update_referencesPy
        [({ mid := "m1", key := "A", payload := "p",
            refs := [{ articleId := "B", referenceId := none }],
            updated := true } : MainPy.PyDoc),
         ({ mid := "m2", key := "B", payload := "q", refs := [],
            updated := false } : MainPy.PyDoc)]).map
      (fun d => d.updated) = [true, false] := by
  decide

namespace Pubmed

theorem refOk_mono {c c' : List StoredArticle} {r : Ref}
    (hp : ∀ t ∈ c, ∃ t' ∈ c', t'.id = t.id ∧ t'.pmid = t.pmid)
    (h : refOk c r) : refOk c' r := by
  rcases h with h | ⟨t, ht, hpm, hid⟩
  · exact Or.inl h
  · rcases hp t ht with ⟨t', ht', hid', hpm'⟩
    refine Or.inr ⟨t', ht', ?_, ?_⟩
    · rw [hpm', hpm]
    · rw [hid, hid']

theorem referenceDocs_none {a : RawArticle} {r : Ref}
    (h : r ∈ referenceDocs a) : r.idArticle = none := by
  simp only [referenceDocs, List.mem_map] at h
  rcases h with ⟨x, _, rfl⟩
  rfl

theorem storeInv_merge {c : List StoredArticle} (a : RawArticle)
    (h : storeInv c) : storeInv (mergeArticle c a) := by
  cases hf : find_one_id c a.pmid with
  | some e =>
    rcases find_one_id_mem hf with ⟨hec, heid⟩
    cases hs : sameSet (e.references.map (fun r => r.pmid)) (newReferences a) with
    | true => rw [mergeArticle_noop hf hs]; exact h
    | false =>
      rw [mergeArticle_changed hf hs]
      have hpairh : ∀ e2 ∈ c, e2.id = e.id →
          (setArticle a e2).id = e2.id ∧ (setArticle a e2).pmid = e2.pmid := by
        intro e2 he2 hid2
        refine ⟨rfl, ?_⟩
        show a.pmid = e2.pmid
        rw [← h.1 e2 he2, hid2, heid]
      have hpair := exists_pair_update_one_id hpairh
      constructor
      · intro d' hd'
        rcases mem_update_one_id hd' with h1 | ⟨e2, he2, hid2, hde⟩
        · exact h.1 d' h1
        · subst hde
          show e2.id = a.pmid
          rw [hid2, heid]
      · intro d' hd' r hr
        rcases mem_update_one_id hd' with h1 | ⟨e2, he2, hid2, hde⟩
        · exact refOk_mono hpair (h.2 d' h1 r hr)
        · subst hde
          exact Or.inl (referenceDocs_none hr)
  | none =>
    rw [mergeArticle_absent hf]
    constructor
    · intro d' hd'
      rcases List.mem_append.mp hd' with h1 | h1
      · exact h.1 d' h1
      · have h2 := List.mem_singleton.mp h1
        subst h2
        rfl
    · intro d' hd' r hr
      rcases List.mem_append.mp hd' with h1 | h1
      · refine refOk_mono ?_ (h.2 d' h1 r hr)
        intro t ht
        exact ⟨t, List.mem_append_left _ ht, rfl, rfl⟩
      · have h2 := List.mem_singleton.mp h1
        subst h2
        exact Or.inl (referenceDocs_none hr)

theorem storeInv_resolve_fold :
    ∀ (todo acc : List StoredArticle),
      storeInv acc →
      (∀ d ∈ todo, ∀ r ∈ d.references, refOk acc r) →
      storeInv (todo.foldl resolveStep acc)
  | [], _, h, _ => h
  | d :: rest, acc, h, htodo => by
    rw [List.foldl_cons]
    have hpair : ∀ t ∈ acc, ∃ t' ∈ resolveStep acc d,
        t'.id = t.id ∧ t'.pmid = t.pmid :=
      exists_pair_update_one_id (fun e2 _ _ => ⟨rfl, rfl⟩)
    have hinv' : storeInv (resolveStep acc d) := by
      constructor
      · intro d' hd'
        rcases mem_update_one_id hd' with h1 | ⟨e2, he2, _, hde⟩
        · exact h.1 d' h1
        · subst hde
          exact h.1 e2 he2
      · intro d' hd' r' hr'
        rcases mem_update_one_id hd' with h1 | ⟨e2, he2, _, hde⟩
        · exact refOk_mono hpair (h.2 d' h1 r' hr')
        · subst hde
          have hr2 : r' ∈ resolveRefs acc d.references := hr'
          simp only [resolveRefs, List.mem_map] at hr2
          rcases hr2 with ⟨r, hrd, hre⟩
          cases hfind : find_one_id acc r.pmid with
          | none =>
            rw [hfind] at hre
            have hrr : r = r' := hre
            subst hrr
            exact refOk_mono hpair (htodo d (List.mem_cons_self ..) r hrd)
          | some t =>
            rw [hfind] at hre
            have hrr : ({ r with idArticle := some t.id } : Ref) = r' := hre
            rcases find_one_id_mem hfind with ⟨htmem, htid⟩
            have hok : refOk acc r' := by
              rw [← hrr]
              refine Or.inr ⟨t, htmem, ?_, rfl⟩
              show t.pmid = r.pmid
              rw [← h.1 t htmem]
              exact htid
            exact refOk_mono hpair hok
    have htodo' : ∀ d' ∈ rest, ∀ r ∈ d'.references,
        refOk (resolveStep acc d) r :=
      fun d' hd' r hr =>
        refOk_mono hpair (htodo d' (List.mem_cons_of_mem _ hd') r hr)
    exact storeInv_resolve_fold rest (resolveStep acc d) hinv' htodo'

theorem storeInv_resolvePhase {c : List StoredArticle} (h : storeInv c) :
    storeInv (resolvePhase c) :=
  storeInv_resolve_fold _ c h
    (fun d hd r hr => h.2 d (List.mem_filter.mp hd).1 r hr)

theorem storeInv_merge_fold :
    ∀ (batch : List RawArticle) {c : List StoredArticle},
      storeInv c → storeInv (batch.foldl mergeArticle c)
  | [], _, h => h
  | a :: rest, c, h => by
    rw [List.foldl_cons]
    exact storeInv_merge_fold rest (storeInv_merge a h)

theorem storeInv_update_database {c : List StoredArticle}
    {b : List RawArticle} (h : storeInv c) : storeInv (update_database c b) :=
  storeInv_resolvePhase (storeInv_merge_fold b h)

theorem storeInv_processBatches :
    ∀ (batches : List (List RawArticle)) {c : List StoredArticle},
      storeInv c → storeInv (processBatches c batches)
  | [], _, h => h
  | b :: bs, c, h => by
    show storeInv (processBatches (update_database c b) bs)
    exact storeInv_processBatches bs (storeInv_update_database h)

end Pubmed

/-- Claim C9: starting from a store satisfying the citation-resolution
invariant — every citation's `idArticle` is null or equal to the `_id`
of a stored document whose `pmid` equals the citation's target — every
merge step, every resolution pass, and every sequence of processed
batches preserves the invariant: a citation is never resolved to a
non-matching document. -/
theorem citation_resolution_invariant (c : List Pubmed.StoredArticle)
    (h : Pubmed.storeInv c) :
    (∀ a, Pubmed.storeInv (Pubmed.mergeArticle c a)) ∧
    Pubmed.storeInv (Pubmed.resolvePhase c) ∧
    (∀ batches, Pubmed.storeInv (Pubmed.processBatches c batches)) :=
  ⟨fun a => Pubmed.storeInv_merge a h,
    Pubmed.storeInv_resolvePhase h,
    fun batches => Pubmed.storeInv_processBatches batches h⟩

/-- Witness for C9: a store where `A`'s citation to `B` is already
resolved to `B`'s `_id` satisfies the invariant, and it is preserved by
merging a batch that republishes `A` with a new citation and by the
resolution pass. -/
theorem citation_resolution_invariant_witness :
    Pubmed.storeInv
      [({ id := "A", pmid := "A", payload := "pa", reference := "B",
          references := [{ pmid := "B", idArticle := some "B" }],
          updated := false } : Pubmed.StoredArticle),
       ({ id := "B", pmid := "B", payload := "pb", reference := "",
          references := [{ pmid := "", idArticle := none }],
          updated := false } : Pubmed.StoredArticle)] ∧
    Pubmed.storeInv
      (Pubmed.processBatches
        [({ id := "A", pmid := "A", payload := "pa", reference := "B",
            references := [{ pmid := "B", idArticle := some "B" }],
            updated := false } : Pubmed.StoredArticle),
         ({ id := "B", pmid := "B", payload := "pb", reference := "",
            references := [{ pmid := "", idArticle := none }],
            updated := false } : Pubmed.StoredArticle)]
        [[{ pmid := "A", payload := "pa2", reference := "B;C" }]]) := by
  have h0 : Pubmed.storeInv
      [({ id := "A", pmid := "A", payload := "pa", reference := "B",
          references := [{ pmid := "B", idArticle := some "B" }],
          updated := false } : Pubmed.StoredArticle),
       ({ id := "B", pmid := "B", payload := "pb", reference := "",
          references := [{ pmid := "", idArticle := none }],
          updated := false } : Pubmed.StoredArticle)] := by
    unfold Pubmed.storeInv Pubmed.refOk
    decide
  exact ⟨h0, (citation_resolution_invariant _ h0).2.2 _⟩
